import Mathlib

/-
Verification development for the db_blender schema-transformation core.

The JavaScript source is shallowly embedded:
* `src/src/processors/csv-processor.js` and `json-processor.js`:
  `inferColumnTypes` (profile accumulation + final resolution).
* `src/src/processors/sql-processor.js`: `transformStatements`,
  `extractDependencies`, `orderByDependencies`, `generateOutput`.

Host builtins that the JS code calls on each value (`Number`, `new Date`,
`JSON.parse`) are not part of the repository; their per-value outcomes are
carried as explicit fields of the embedded value type `JsVal`, so every
theorem quantifying over values quantifies over all possible host outcomes.
-/

set_option maxHeartbeats 1000000

/-- A JavaScript value as observed by `inferColumnTypes`.  The fields record
exactly the host-evaluation outcomes the source consults:
`isNull` = `value === null`; `str` = `String(value)`;
`jsonOk` = `JSON.parse(String(value))` succeeds;
`dateOk` = `new Date(value)` is not `Invalid Date`;
`numOk` = `!Number.isNaN(Number(value))`;
`numHasDot` = `String(Number(value)).includes(".")`. -/
structure JsVal where
  isNull : Bool
  str : String
  jsonOk : Bool
  dateOk : Bool
  numOk : Bool
  numHasDot : Bool
deriving DecidableEq

/-- `value === null || value === ''` — the skip test both processors apply
before updating a column profile. -/
def JsVal.skip (v : JsVal) : Bool := v.isNull || v.str == ""

/-- A record: ordered `column -> value` entries (`Object.entries` order). -/
abbrev Record := List (String × JsVal)

/-- Column profile accumulated by the CSV processor
(`csv-processor.js`, `inferColumnTypes`, initialisation block). -/
structure TrackCsv where
  maxLength : Nat
  containsDecimal : Bool
  containsNonNumeric : Bool
  isDate : Bool
deriving DecidableEq

def initCsv : TrackCsv := ⟨0, false, false, true⟩

/-- One non-skipped value applied to a CSV profile
(`csv-processor.js` lines 91-111): max-length update, then the date check,
then the numeric/decimal check. -/
def stepCsv (t : TrackCsv) (v : JsVal) : TrackCsv :=
  let t1 : TrackCsv := { t with maxLength := max t.maxLength v.str.length }
  let t2 : TrackCsv :=
    if t1.isDate && !v.dateOk then { t1 with isDate := false } else t1
  if v.numOk then
    (if v.numHasDot then { t2 with containsDecimal := true } else t2)
  else
    { t2 with containsNonNumeric := true }

/-- Final type resolution of the CSV processor
(`csv-processor.js` lines 116-138). -/
def resolveCsv (t : TrackCsv) : String :=
  if t.isDate then "DATETIME"
  else if !t.containsNonNumeric then
    if t.containsDecimal then "DECIMAL(10,2)"
    else if t.maxLength ≤ 3 then "TINYINT"
    else if t.maxLength ≤ 5 then "SMALLINT"
    else if t.maxLength ≤ 10 then "INT"
    else "BIGINT"
  else if t.maxLength ≤ 255 then "VARCHAR(" ++ toString t.maxLength ++ ")"
  else "TEXT"

/-- Column profile of the JSON processor (`json-processor.js`), which adds
the `isJson` flag. -/
structure TrackJson where
  maxLength : Nat
  containsDecimal : Bool
  containsNonNumeric : Bool
  isDate : Bool
  isJson : Bool
deriving DecidableEq

def initJson : TrackJson := ⟨0, false, false, true, false⟩

/-- One non-skipped value applied to a JSON profile
(`json-processor.js` lines 127-158): max-length update, then the
`JSON.parse` check which on success sets the flags and `continue`s past the
date and numeric checks. -/
def stepJson (t : TrackJson) (v : JsVal) : TrackJson :=
  let t1 : TrackJson := { t with maxLength := max t.maxLength v.str.length }
  if v.jsonOk then
    { t1 with isJson := true, isDate := false, containsNonNumeric := true }
  else
    let t2 : TrackJson :=
      if t1.isDate && !v.dateOk then { t1 with isDate := false } else t1
    if v.numOk then
      (if v.numHasDot then { t2 with containsDecimal := true } else t2)
    else
      { t2 with containsNonNumeric := true }

/-- Final type resolution of the JSON processor
(`json-processor.js` lines 163-187). -/
def resolveJson (t : TrackJson) : String :=
  if t.isJson then "JSON"
  else if t.isDate then "DATETIME"
  else if !t.containsNonNumeric then
    if t.containsDecimal then "DECIMAL(10,2)"
    else if t.maxLength ≤ 3 then "TINYINT"
    else if t.maxLength ≤ 5 then "SMALLINT"
    else if t.maxLength ≤ 10 then "INT"
    else "BIGINT"
  else if t.maxLength ≤ 255 then "VARCHAR(" ++ toString t.maxLength ++ ")"
  else "TEXT"

/-- `obj[key]` lookup on an insertion-ordered property list. -/
def lookupProf {τ : Type} (ps : List (String × τ)) (c : String) : Option τ :=
  (ps.find? (fun p => p.1 == c)).map Prod.snd

/-- `obj[key] = v`: overwrite in place if the key exists, else append
(JS object property semantics). -/
def setProf {τ : Type} : List (String × τ) → String → τ → List (String × τ)
  | [], c, v => [(c, v)]
  | p :: ps, c, v => if p.1 == c then (c, v) :: ps else p :: setProf ps c v

/-- `for (const column of Object.keys(firstRow)) columnTypes[column] = init`. -/
def initProfiles {τ : Type} (ini : τ) (r : Record) : List (String × τ) :=
  r.foldl (fun ps e => setProf ps e.1 ini) []

/-- Processing of one record entry.  A non-skipped value in a column absent
from the profile map makes the JS code read a property of `undefined`,
throwing a TypeError; this is the `none` outcome. -/
def stepEntryG {τ : Type} (step : τ → JsVal → τ) (ps : List (String × τ))
    (e : String × JsVal) : Option (List (String × τ)) :=
  if e.2.skip then some ps
  else
    match lookupProf ps e.1 with
    | none => none
    | some t => some (setProf ps e.1 (step t e.2))

/-- The analysis loops shared verbatim by both processors: initialise a
profile for each column of the first record, then fold every entry of every
record through `stepEntryG`.  An empty record set returns the empty map. -/
def analyzeG {τ : Type} (step : τ → JsVal → τ) (ini : τ) (rs : List Record) :
    Option (List (String × τ)) :=
  match rs with
  | [] => some []
  | r0 :: _ =>
      rs.foldlM (fun ps r => r.foldlM (stepEntryG step) ps) (initProfiles ini r0)

/-- `inferColumnTypes` of `csv-processor.js` (lines 67-141):
analysis followed by per-column resolution.  `none` models the thrown
TypeError on a value for an unprofiled column. -/
def inferColumnTypesCsv (rs : List Record) : Option (List (String × String)) :=
  (analyzeG stepCsv initCsv rs).map (List.map (fun p => (p.1, resolveCsv p.2)))

/-- `inferColumnTypes` of `json-processor.js` (lines 102-190). -/
def inferColumnTypesJson (rs : List Record) : Option (List (String × String)) :=
  (analyzeG stepJson initJson rs).map (List.map (fun p => (p.1, resolveJson p.2)))

/-- Integer width by maximum observed string length, exactly as the claim
words it: length ≤ 3 TINYINT, ≤ 5 SMALLINT, ≤ 10 INT, otherwise BIGINT. -/
def intWidthSpec (n : Nat) : String :=
  if n ≤ 3 then "TINYINT" else if n ≤ 5 then "SMALLINT"
  else if n ≤ 10 then "INT" else "BIGINT"

/-- Resolution precedence as the specification words it, for the JSON
processor's profile: structured (JSON) first; otherwise DATETIME if the date
flag is still set; otherwise, if no non-numeric value was observed,
DECIMAL(10,2) when any decimal was observed, else the integer width by
maximum length; otherwise VARCHAR(maxLength) when maxLength ≤ 255, else
TEXT. -/
def resolveSpecJson (t : TrackJson) : String :=
  if t.isJson = true then "JSON"
  else if t.isDate = true then "DATETIME"
  else if t.containsNonNumeric = false then
    (if t.containsDecimal = true then "DECIMAL(10,2)" else intWidthSpec t.maxLength)
  else if t.maxLength ≤ 255 then "VARCHAR(" ++ toString t.maxLength ++ ")"
  else "TEXT"

/-- The same specification precedence for the CSV processor's profile, which
has no structured flag, so resolution starts at the DATETIME arm. -/
def resolveSpecCsv (t : TrackCsv) : String :=
  if t.isDate = true then "DATETIME"
  else if t.containsNonNumeric = false then
    (if t.containsDecimal = true then "DECIMAL(10,2)" else intWidthSpec t.maxLength)
  else if t.maxLength ≤ 255 then "VARCHAR(" ++ toString t.maxLength ++ ")"
  else "TEXT"

/-- The SQL processor's per-run registries (`sql-processor.js` constructor):
`tables` is the insertion-ordered key list of the `tables` Map (only the
keys are consulted downstream), `deps` is the `dependencies` Map as an
insertion-ordered association list. -/
structure MergeState where
  tables : List String
  deps : List (String × List String)
deriving DecidableEq

/-- The search pattern of `orderByDependencies`:
CREATE TABLE backquote name backquote. -/
def tablePat (t : String) : String := "CREATE TABLE `" ++ t ++ "`"

/-- `pat` occurs as a contiguous run of `s`, checked at every suffix. -/
def includesChars (pat : List Char) : List Char → Bool
  | [] => pat.isEmpty
  | c :: cs => pat.isPrefixOf (c :: cs) || includesChars pat cs

/-- JS `s.includes(pat)` — substring test. -/
def includesStr (s pat : String) : Bool := includesChars pat.data s.data

/-- `statements.find(s => s.includes("CREATE TABLE ` + name + `"))`. -/
def findStmt (stmts : List String) (t : String) : Option String :=
  stmts.find? (fun s => includesStr s (tablePat t))

/-- JS `Set.add` / `Map.set` key behaviour: keep first-insertion position. -/
def insertName (v : List String) (t : String) : List String :=
  if t ∈ v then v else v ++ [t]

/-- `this.dependencies.get(tableName) || new Set()`. -/
def depsOf (st : MergeState) (t : String) : List String :=
  match st.deps.find? (fun p => p.1 == t) with
  | some p => p.2
  | none => []

/-- Every table name occurring in the registries: the `tables` keys, the
`dependencies` keys and every dependency target. -/
def regNames (st : MergeState) : List String :=
  st.tables ++ st.deps.map Prod.fst ++ (st.deps.map Prod.snd).flatten

/-- Stack budget of the embedded depth-first visit.  The JS `visit` has no
such bound; its recursion depth is limited only by the engine's call stack.
For any input on which the JS recursion terminates, its nesting depth is at
most the number of distinct names, so this budget is never the reason a
terminating run is cut short; a run that exhausts it models the unbounded
recursion aborting with a stack overflow. -/
def fuelBound (st : MergeState) : Nat := (regNames st).length + 1

/-- `(visited, ordered)` accumulator of `orderByDependencies`. -/
abbrev VO := List String × List String

/-- The depth-first visit of `orderByDependencies` (lines 173-189), applied
to a worklist: `visitGo st stmts n [t] acc` is `visit(t)` at remaining stack
budget `n`, and the worklist tail is the enclosing `for` loop.  A table
already in `visited` returns immediately; otherwise its dependencies are
visited one stack level deeper, the table is marked visited, and its
matching statement — if any — is appended. -/
def visitGo (st : MergeState) (stmts : List String) :
    Nat → List String → VO → Option VO
  | _, [], acc => some acc
  | n, t :: rest, acc =>
    if t ∈ acc.1 then visitGo st stmts n rest acc
    else
      match n with
      | 0 => none
      | Nat.succ m =>
        match visitGo st stmts m (depsOf st t) acc with
        | none => none
        | some vo =>
          visitGo st stmts (Nat.succ m) rest
            (insertName vo.1 t, vo.2 ++ (findStmt stmts t).toList)
termination_by n ds _ => (n, ds.length)

/-- JS `String.prototype.trim()`: strip leading and trailing whitespace. -/
def jsTrim (s : String) : String :=
  ⟨((s.data.dropWhile Char.isWhitespace).reverse.dropWhile Char.isWhitespace).reverse⟩

/-- JS `String.prototype.toUpperCase()` on the ASCII range the statements
use. -/
def jsToUpper (s : String) : String := ⟨s.data.map Char.toUpper⟩

/-- JS `String.prototype.startsWith`. -/
def jsStartsWith (s pre : String) : Bool := pre.data.isPrefixOf s.data

/-- Predicate of the trailing pass: keep statements that do not start with
CREATE TABLE after `trim().toUpperCase()`. -/
def trailingKeep (s : String) : Bool :=
  !(jsStartsWith (jsToUpper (jsTrim s)) "CREATE TABLE")

/-- `orderByDependencies` (`sql-processor.js` lines 169-199): visit every
registered table depth-first, then append the remaining non-CREATE-TABLE
statements in original order.  `none` models the unguarded recursion on a
dependency cycle overflowing the call stack and aborting the run. -/
def orderByDependencies (st : MergeState) (stmts : List String) :
    Option (List String) :=
  match visitGo st stmts (fuelBound st) st.tables ([], []) with
  | none => none
  | some vo => some (vo.2 ++ stmts.filter trailingKeep)

/-- Configuration slice consulted by `transformStatements`.
`stripPre` embeds `config.stripPrefix`, with `""` for the JS falsy
not-configured case. -/
structure Config where
  stripPre : String
  mergeSql : Bool

/-- Structural form of one parsed statement, restricted to the parts
`transformStatements` consults: whether `ast.type === "create"`, the table
name `ast.table[0].table`, and for each entry of `create_definitions`
whether it is a foreign-key constraint and which table it references
(`some ref`) or not (`none`).  Column-definition detail is rewritten by
`transformColumns` but never read by the registration or ordering logic, so
it lives inside the opaque `sqlify` rendering. -/
structure Ast where
  isCreate : Bool
  table : String
  defs : List (Option String)
deriving DecidableEq

/-- JS `String.prototype.substring(k)`: drop the first `k` units. -/
def jsDrop (s : String) (n : Nat) : String := ⟨s.data.drop n⟩

/-- The prefix strip (lines 99-101): applied only when `stripPrefix` is
configured (truthy, i.e. non-empty) and the name starts with it. -/
def stripName (cfg : Config) (n : String) : String :=
  if cfg.stripPre ≠ "" ∧ jsStartsWith n cfg.stripPre then
    jsDrop n cfg.stripPre.length
  else n

/-- `extractDependencies` (lines 152-164): collect the referenced table of
every foreign-key definition into a Set (insertion-ordered, deduplicated). -/
def extractFks (defs : List (Option String)) : List String :=
  defs.foldl (fun acc d => match d with | some r => insertName acc r | none => acc) []

/-- `Map.set` on an association list: overwrite in place or append. -/
def setDep (m : List (String × List String)) (k : String) (v : List String) :
    List (String × List String) :=
  if (m.find? (fun p => p.1 == k)).isSome
  then m.map (fun p => if p.1 == k then (k, v) else p)
  else m ++ [(k, v)]

/-- Output text of one statement, as a function of the parse and
re-serialisation oracles: a parse failure keeps the original text; a CREATE
statement is re-serialised with the stripped name. -/
def emitOne (cfg : Config) (astify : String → Option Ast) (sqlify : Ast → String)
    (s : String) : String :=
  match astify s with
  | none => s
  | some ast =>
    if ast.isCreate then sqlify { ast with table := stripName cfg ast.table }
    else sqlify ast

/-- One iteration of the `transformStatements` loop (lines 89-123), threading
(outputs, warning count, registries).  On parse failure the original text is
pushed and a warning is counted; on a CREATE statement the table is
registered in both registries under its original pre-strip name
(`tableName` is captured before the strip mutates the AST) while the pushed
text carries the stripped name. -/
def stepStmt (cfg : Config) (astify : String → Option Ast) (sqlify : Ast → String)
    (acc : List String × Nat × MergeState) (s : String) :
    List String × Nat × MergeState :=
  match astify s with
  | none => (acc.1 ++ [s], acc.2.1 + 1, acc.2.2)
  | some ast =>
    if ast.isCreate then
      let n := ast.table
      let ast1 : Ast := { ast with table := stripName cfg n }
      let st : MergeState :=
        { tables := insertName acc.2.2.tables n,
          deps := setDep acc.2.2.deps n (extractFks ast.defs) }
      (acc.1 ++ [sqlify ast1], acc.2.1, st)
    else (acc.1 ++ [sqlify ast], acc.2.1, acc.2.2)

/-- The full `transformStatements` loop over a statement list. -/
def runTransform (cfg : Config) (astify : String → Option Ast)
    (sqlify : Ast → String) (stmts : List String) :
    List String × Nat × MergeState :=
  stmts.foldl (stepStmt cfg astify sqlify) ([], 0, ⟨[], []⟩)

/-- `transformStatements` (lines 86-126): the loop, then — in merge mode —
the dependency ordering. -/
def transformStatements (cfg : Config) (astify : String → Option Ast)
    (sqlify : Ast → String) (stmts : List String) : Option (List String) :=
  let r := runTransform cfg astify sqlify stmts
  if cfg.mergeSql then orderByDependencies r.2.2 r.1 else some r.1

/-- `generateOutput` (`sql-processor.js` lines 204-221), with the timestamp
(`new Date().toISOString()`) and target encoding as parameters: the banner
comment block and both pragmas, the statements joined with `;` and a blank
line, and the re-enable pragma. -/
def generateOutput (ts enc : String) (stmts : List String) : String :=
  let header := String.intercalate "\n"
    ["-- Generated by DB Blender", "-- Timestamp: " ++ ts,
     "-- Encoding: " ++ enc, "", "SET NAMES utf8mb4;",
     "SET FOREIGN_KEY_CHECKS = 0;", ""]
  let footer := String.intercalate "\n" ["", "SET FOREIGN_KEY_CHECKS = 1;"]
  header ++ String.intercalate ";\n\n" stmts ++ footer

/-- Reachability along recorded dependency edges. -/
inductive Reach (st : MergeState) : String → String → Prop
  | refl (t : String) : Reach st t t
  | step {a b c : String} : b ∈ depsOf st a → Reach st b c → Reach st a c

/-- Rank compression: the number of distinct rank values, among names in the
registries, strictly below the rank of `x`.  It preserves strict decrease
along edges and is bounded by the number of names. -/
def rankC (st : MergeState) (rank : String → Nat) (x : String) : Nat :=
  (((regNames st).map rank).toFinset.filter (fun r => r < rank x)).card

lemma resolveCsv_eq_spec (t : TrackCsv) : resolveCsv t = resolveSpecCsv t := by
  cases t with
  | mk ml cd cnn isd =>
    cases cd <;> cases cnn <;> cases isd <;>
      simp [resolveCsv, resolveSpecCsv, intWidthSpec]

lemma resolveJson_eq_spec (t : TrackJson) : resolveJson t = resolveSpecJson t := by
  cases t with
  | mk ml cd cnn isd isj =>
    cases cd <;> cases cnn <;> cases isd <;> cases isj <;>
      simp [resolveJson, resolveSpecJson, intWidthSpec]

/-- Claim C1: for every record sequence, each column's resolved type in the
inference output is obtained from its accumulated profile by the fixed
top-down precedence the specification states: structured (JSON) first (JSON
processor); otherwise DATETIME if the date flag is still set; otherwise, if
no non-numeric value was observed, DECIMAL(10,2) when any decimal was
observed, else the integer width by maximum observed string length (≤3
TINYINT, ≤5 SMALLINT, ≤10 INT, else BIGINT); otherwise VARCHAR(maxLength)
when maxLength ≤ 255, else TEXT.  The CSV processor's profile has no
structured flag, so its precedence starts at the DATETIME arm. -/
theorem inferColumnTypes_resolution_follows_claim_precedence :
    (∀ (rs : List Record) (ps : List (String × TrackJson)),
      analyzeG stepJson initJson rs = some ps →
      inferColumnTypesJson rs = some (ps.map (fun p => (p.1, resolveSpecJson p.2)))) ∧
    (∀ (rs : List Record) (ps : List (String × TrackCsv)),
      analyzeG stepCsv initCsv rs = some ps →
      inferColumnTypesCsv rs = some (ps.map (fun p => (p.1, resolveSpecCsv p.2)))) := by
  constructor
  · intro rs ps h
    simp only [inferColumnTypesJson, h, Option.map_some]
    exact congrArg some (List.map_congr_left (fun p _ => by rw [resolveJson_eq_spec]))
  · intro rs ps h
    simp only [inferColumnTypesCsv, h, Option.map_some]
    exact congrArg some (List.map_congr_left (fun p _ => by rw [resolveCsv_eq_spec]))

/-- Witness for C1 at a concrete one-record input: a single non-numeric,
non-date, non-JSON value of length 1 resolves through the claim's
precedence. -/
theorem inferColumnTypes_resolution_follows_claim_precedence_witness :
    inferColumnTypesJson [[("a", ⟨false, "x", false, false, false, false⟩)]]
      = some [("a", resolveSpecJson ⟨1, false, true, false, false⟩)] :=
  inferColumnTypes_resolution_follows_claim_precedence.1
    [[("a", ⟨false, "x", false, false, false, false⟩)]]
    [("a", ⟨1, false, true, false, false⟩)] (by decide)

/-- Claim C4: on the records `[{age: "7"}, {age: "12"}, {age: "999"}]` the
CSV inferencer resolves column `age` to TINYINT (maximum observed length 3
is within the ≤ 3 boundary).  The values are quantified over every host
outcome of `JSON.parse` (unread by the CSV processor) and of `new Date`,
under the single host fact the result depends on: at least one of the three
strings fails to parse as a date (otherwise the still-set date flag would
take precedence); `Number` parses each string without a fractional part. -/
theorem infer_age_records_resolve_tinyint :
    ∀ (j7 j12 j999 d7 d12 d999 : Bool), (d7 && d12 && d999) = false →
    inferColumnTypesCsv
      [[("age", ⟨false, "7", j7, d7, true, false⟩)],
       [("age", ⟨false, "12", j12, d12, true, false⟩)],
       [("age", ⟨false, "999", j999, d999, true, false⟩)]]
      = some [("age", "TINYINT")] := by decide

/-- Witness for C4: the concrete instance where none of the three strings
date-parses. -/
theorem infer_age_records_resolve_tinyint_witness :
    inferColumnTypesCsv
      [[("age", ⟨false, "7", false, false, true, false⟩)],
       [("age", ⟨false, "12", false, false, true, false⟩)],
       [("age", ⟨false, "999", false, false, true, false⟩)]]
      = some [("age", "TINYINT")] :=
  infer_age_records_resolve_tinyint false false false false false false rfl

/-- Keys of the first record — the only columns that get a profile. -/
def headKeys (rs : List Record) : List String :=
  match rs with
  | [] => []
  | r :: _ => r.map Prod.fst

/-- All non-skipped entries of a record sequence, in processing order.
Record boundaries and null/empty entries are invisible to the analysis
fold, so this list determines it together with `headKeys`. -/
def flatNonSkip (rs : List Record) : List (String × JsVal) :=
  (rs.map (fun r => r.filter (fun e => !e.2.skip))).flatten


lemma lookupProf_setProf {τ : Type} (ps : List (String × τ)) (c c' : String) (v : τ) :
    lookupProf (setProf ps c v) c' = if c' = c then some v else lookupProf ps c' := by
  induction ps with
  | nil =>
    by_cases h : c' = c
    · rw [if_pos h]
      simp only [setProf, lookupProf]
      rw [List.find?_cons_of_pos _ (by simp [h.symm])]
      rfl
    · rw [if_neg h]
      simp only [setProf, lookupProf]
      rw [List.find?_cons_of_neg _ (by simp; exact fun hh => h hh.symm)]
  | cons p ps ih =>
    rcases p with ⟨k, w⟩
    by_cases hp : k = c
    · have hsp : setProf ((k, w) :: ps) c v = (c, v) :: ps := by
        simp [setProf, hp]
      rw [hsp]
      by_cases h : c' = c
      · rw [if_pos h]
        simp only [lookupProf]
        rw [List.find?_cons_of_pos _ (by simp [h.symm])]
        rfl
      · rw [if_neg h]
        simp only [lookupProf]
        rw [List.find?_cons_of_neg _ (by simp; exact fun hh => h hh.symm),
            List.find?_cons_of_neg _ (by simp; exact fun hh => h (hh.symm.trans hp))]
    · have hsp : setProf ((k, w) :: ps) c v = (k, w) :: setProf ps c v := by
        simp [setProf, hp]
      rw [hsp]
      by_cases hpc : k = c'
      · simp only [lookupProf]
        rw [List.find?_cons_of_pos _ (by simp [hpc]),
            List.find?_cons_of_pos _ (by simp [hpc]),
            if_neg (fun hh : c' = c => hp (hpc.trans hh))]
      · simp only [lookupProf]
        rw [List.find?_cons_of_neg _ (by simp [hpc]),
            List.find?_cons_of_neg _ (by simp [hpc])]
        exact ih

lemma foldlM_record_filter {τ : Type} (step : τ → JsVal → τ) (r : Record)
    (ps : List (String × τ)) :
    r.foldlM (stepEntryG step) ps
      = (r.filter (fun e => !e.2.skip)).foldlM (stepEntryG step) ps := by
  induction r generalizing ps with
  | nil => rfl
  | cons e es ih =>
    by_cases hs : e.2.skip
    · have h1 : stepEntryG step ps e = some ps := by simp [stepEntryG, hs]
      have h2 : (e :: es).filter (fun e => !e.2.skip) = es.filter (fun e => !e.2.skip) := by
        simp [List.filter, hs]
      rw [h2, List.foldlM_cons, h1]
      simpa using ih ps
    · have h2 : (e :: es).filter (fun e => !e.2.skip)
          = e :: es.filter (fun e => !e.2.skip) := by
        simp [List.filter, hs]
      rw [h2, List.foldlM_cons, List.foldlM_cons]
      cases stepEntryG step ps e with
      | none => rfl
      | some ps' => simpa using ih ps'

lemma analyzeG_foldlM_flat {τ : Type} (step : τ → JsVal → τ) (rs : List Record)
    (ps : List (String × τ)) :
    rs.foldlM (fun ps r => r.foldlM (stepEntryG step) ps) ps
      = (flatNonSkip rs).foldlM (stepEntryG step) ps := by
  induction rs generalizing ps with
  | nil => rfl
  | cons r rest ih =>
    have hfl : flatNonSkip (r :: rest)
        = r.filter (fun e => !e.2.skip) ++ flatNonSkip rest := by
      simp [flatNonSkip]
    rw [hfl, List.foldlM_cons, List.foldlM_append, foldlM_record_filter]
    cases (r.filter (fun e => !e.2.skip)).foldlM (stepEntryG step) ps with
    | none => rfl
    | some ps' => simpa using ih ps'

lemma initProfiles_keys {τ : Type} (ini : τ) (r : Record) :
    initProfiles ini r = (r.map Prod.fst).foldl (fun ps k => setProf ps k ini) [] := by
  simp [initProfiles, List.foldl_map]

lemma analyzeG_eq_of_headKeys_flat {τ : Type} (step : τ → JsVal → τ) (ini : τ)
    (rs rs' : List Record) (h1 : headKeys rs = headKeys rs')
    (h2 : flatNonSkip rs = flatNonSkip rs') :
    analyzeG step ini rs = analyzeG step ini rs' := by
  cases rs with
  | nil =>
    cases rs' with
    | nil => rfl
    | cons r' rest' =>
      have hk : r'.map Prod.fst = [] := by simpa [headKeys] using h1.symm
      have hr : r' = [] := List.map_eq_nil_iff.mp hk
      have hfl : flatNonSkip (r' :: rest') = [] := by
        simpa [flatNonSkip] using h2.symm
      show some [] = analyzeG step ini (r' :: rest')
      rw [show analyzeG step ini (r' :: rest')
            = (r' :: rest').foldlM (fun ps r => r.foldlM (stepEntryG step) ps)
                (initProfiles ini r') from rfl,
          analyzeG_foldlM_flat, hfl, hr]
      rfl
  | cons r rest =>
    cases rs' with
    | nil =>
      have hk : r.map Prod.fst = [] := by simpa [headKeys] using h1
      have hr : r = [] := List.map_eq_nil_iff.mp hk
      have hfl : flatNonSkip (r :: rest) = [] := by simpa [flatNonSkip] using h2
      show analyzeG step ini (r :: rest) = some []
      rw [show analyzeG step ini (r :: rest)
            = (r :: rest).foldlM (fun ps r => r.foldlM (stepEntryG step) ps)
                (initProfiles ini r) from rfl,
          analyzeG_foldlM_flat, hfl, hr]
      rfl
    | cons r' rest' =>
      have hk : r.map Prod.fst = r'.map Prod.fst := by simpa [headKeys] using h1
      show (r :: rest).foldlM (fun ps r => r.foldlM (stepEntryG step) ps)
              (initProfiles ini r)
          = (r' :: rest').foldlM (fun ps r => r.foldlM (stepEntryG step) ps)
              (initProfiles ini r')
      rw [analyzeG_foldlM_flat, analyzeG_foldlM_flat, h2,
          initProfiles_keys, initProfiles_keys, hk]

lemma lookupProf_init_isSome {τ : Type} (ini : τ) (ks : List String)
    (ps : List (String × τ)) (c : String) :
    (lookupProf (ks.foldl (fun ps k => setProf ps k ini) ps) c).isSome
      ↔ (c ∈ ks ∨ (lookupProf ps c).isSome) := by
  induction ks generalizing ps with
  | nil => simp
  | cons k ks ih =>
    simp only [List.foldl_cons]
    rw [ih, lookupProf_setProf ps k c ini]
    by_cases h : c = k
    · simp [h]
    · simp [h]

lemma foldlM_entries_isSome {τ : Type} (step : τ → JsVal → τ)
    (entries : List (String × JsVal)) :
    ∀ ps : List (String × τ),
    (∀ e ∈ entries, e.2.skip = false → (lookupProf ps e.1).isSome) →
    (entries.foldlM (stepEntryG step) ps).isSome := by
  induction entries with
  | nil => intro ps _; simp
  | cons e es ih =>
    intro ps hdom
    rw [List.foldlM_cons]
    by_cases hs : e.2.skip
    · have h1 : stepEntryG step ps e = some ps := by simp [stepEntryG, hs]
      rw [h1]
      exact ih ps (fun e' he' => hdom e' (List.mem_cons_of_mem _ he'))
    · have hl := hdom e (List.mem_cons_self _ _) (by simpa using hs)
      obtain ⟨t, ht⟩ := Option.isSome_iff_exists.mp hl
      have h1 : stepEntryG step ps e = some (setProf ps e.1 (step t e.2)) := by
        simp [stepEntryG, hs, ht]
      rw [h1]
      apply ih
      intro e' he' hsk
      rw [lookupProf_setProf]
      by_cases h : e'.1 = e.1
      · simp [h]
      · simp only [if_neg h]
        exact hdom e' (List.mem_cons_of_mem _ he') hsk

lemma analyzeG_isSome_of_subset {τ : Type} (step : τ → JsVal → τ) (ini : τ)
    (rs : List Record)
    (h : ∀ r ∈ rs, ∀ e ∈ r, e.2.skip = false → e.1 ∈ headKeys rs) :
    (analyzeG step ini rs).isSome := by
  cases rs with
  | nil => simp [analyzeG]
  | cons r0 rest =>
    show ((r0 :: rest).foldlM (fun ps (r : Record) => r.foldlM (stepEntryG step) ps)
        (initProfiles ini r0)).isSome
    rw [analyzeG_foldlM_flat]
    apply foldlM_entries_isSome
    intro e he hsk
    rw [initProfiles_keys, lookupProf_init_isSome]
    left
    have he2 : e ∈ ((r0 :: rest).map
        (fun r => r.filter (fun e => !e.2.skip))).flatten := by
      simpa [flatNonSkip] using he
    obtain ⟨l, hl, hel⟩ := List.mem_flatten.mp he2
    obtain ⟨r, hr, rfl⟩ := List.mem_map.mp hl
    have := h r hr e (List.mem_of_mem_filter hel) hsk
    simpa [headKeys] using this

/-- Claim C5 (amended): the inferencer returns a column-to-type mapping
without failing for the empty record sequence (empty mapping) and for every
sequence in which each record's non-null, non-empty entries use only columns
of the first record.  The original claim's "including sequences whose
records have differing column sets" fails: a non-null, non-empty value for a
column absent from the first record throws, see the counterexample
`infer_throws_on_column_absent_from_first_record`. -/
theorem infer_total_when_columns_within_first_record :
    (inferColumnTypesCsv [] = some [] ∧ inferColumnTypesJson [] = some []) ∧
    ∀ rs : List Record,
      (∀ r ∈ rs, ∀ e ∈ r, e.2.skip = false → e.1 ∈ headKeys rs) →
      (inferColumnTypesCsv rs).isSome ∧ (inferColumnTypesJson rs).isSome := by
  refine ⟨⟨rfl, rfl⟩, ?_⟩
  intro rs h
  constructor
  · simpa [inferColumnTypesCsv] using analyzeG_isSome_of_subset stepCsv initCsv rs h
  · simpa [inferColumnTypesJson] using analyzeG_isSome_of_subset stepJson initJson rs h

/-- Witness for the amended C5 at a concrete uniform-column input. -/
theorem infer_total_witness :
    (inferColumnTypesCsv [[("a", ⟨false, "x", false, false, false, false⟩)]]).isSome ∧
    (inferColumnTypesJson [[("a", ⟨false, "x", false, false, false, false⟩)]]).isSome :=
  infer_total_when_columns_within_first_record.2
    [[("a", ⟨false, "x", false, false, false, false⟩)]] (by decide)

/-- Counterexample to C5 as stated: the record sequence `[{}, {a: "x"}]`
has differing column sets and makes both inferencers throw (`none`), rather
than return a mapping. -/
theorem infer_throws_on_column_absent_from_first_record :
    inferColumnTypesCsv [[], [("a", ⟨false, "x", false, false, false, false⟩)]] = none ∧
    inferColumnTypesJson [[], [("a", ⟨false, "x", false, false, false, false⟩)]] = none := by
  decide

/-- Claim C6 (amended): inserting or removing null/empty-string entries
never changes any column's resolved type — in fact the whole output mapping
is unchanged — provided the first record's column list is unchanged.  The
analysis depends only on the first record's keys and on the non-skipped
entries in order.  Without the proviso the claim fails, see
`infer_null_entry_can_change_resolved_type`. -/
theorem infer_invariant_under_null_or_empty_entries :
    ∀ rs rs' : List Record, headKeys rs = headKeys rs' →
    flatNonSkip rs = flatNonSkip rs' →
    inferColumnTypesCsv rs = inferColumnTypesCsv rs' ∧
    inferColumnTypesJson rs = inferColumnTypesJson rs' := by
  intro rs rs' h1 h2
  constructor
  · simp only [inferColumnTypesCsv,
      analyzeG_eq_of_headKeys_flat stepCsv initCsv rs rs' h1 h2]
  · simp only [inferColumnTypesJson,
      analyzeG_eq_of_headKeys_flat stepJson initJson rs rs' h1 h2]

/-- Witness for the amended C6: removing a whole record holding only a null
entry (not in first position) leaves the inferred mapping unchanged. -/
theorem infer_invariant_witness :
    inferColumnTypesCsv
        [[("a", ⟨false, "x", false, false, false, false⟩)],
         [("a", ⟨true, "", false, false, false, false⟩)]]
      = inferColumnTypesCsv [[("a", ⟨false, "x", false, false, false, false⟩)]] ∧
    inferColumnTypesJson
        [[("a", ⟨false, "x", false, false, false, false⟩)],
         [("a", ⟨true, "", false, false, false, false⟩)]]
      = inferColumnTypesJson [[("a", ⟨false, "x", false, false, false, false⟩)]] :=
  infer_invariant_under_null_or_empty_entries _ _ (by decide) (by decide)

/-- Counterexample to C6 as stated: inserting a single null-valued entry for
column `c` as a new first record changes `c`'s resolved type from VARCHAR(1)
to no output at all — the value for `a` is no longer profiled and inference
throws. -/
theorem infer_null_entry_can_change_resolved_type :
    inferColumnTypesCsv
        [[("a", ⟨false, "1", false, false, true, false⟩),
          ("c", ⟨false, "x", false, false, false, false⟩)]]
      = some [("a", "TINYINT"), ("c", "VARCHAR(1)")] ∧
    inferColumnTypesCsv
        [[("c", ⟨true, "", false, false, false, false⟩)],
         [("a", ⟨false, "1", false, false, true, false⟩),
          ("c", ⟨false, "x", false, false, false, false⟩)]]
      = none := by decide

lemma lookupProf_map {τ σ : Type} (f : τ → σ) (ps : List (String × τ)) (c : String) :
    lookupProf (ps.map (fun p => (p.1, f p.2))) c = (lookupProf ps c).map f := by
  induction ps with
  | nil => rfl
  | cons p ps ih =>
    by_cases h : p.1 = c
    · simp only [List.map_cons, lookupProf]
      rw [List.find?_cons_of_pos _ (by simp [h]), List.find?_cons_of_pos _ (by simp [h])]
      rfl
    · simp only [List.map_cons, lookupProf]
      rw [List.find?_cons_of_neg _ (by simp [h]), List.find?_cons_of_neg _ (by simp [h])]
      exact ih

lemma stepJson_keeps_isJson (t : TrackJson) (v : JsVal) (hj : t.isJson = true) :
    (stepJson t v).isJson = true := by
  by_cases h : v.jsonOk <;>
    by_cases hd : (t.isDate && !v.dateOk) <;>
    by_cases hn : v.numOk <;>
    by_cases hdot : v.numHasDot <;>
    simp [stepJson, h, hd, hn, hdot, hj]

lemma stepEntryG_skip_eq {τ : Type} (step : τ → JsVal → τ) (ps : List (String × τ))
    (e : String × JsVal) (hs : e.2.skip = true) : stepEntryG step ps e = some ps := by
  simp [stepEntryG, hs]

lemma stepEntryG_nonskip_eq {τ : Type} (step : τ → JsVal → τ) (ps : List (String × τ))
    (e : String × JsVal) (t : τ) (hs : ¬ e.2.skip = true)
    (hl : lookupProf ps e.1 = some t) :
    stepEntryG step ps e = some (setProf ps e.1 (step t e.2)) := by
  simp [stepEntryG, hs, hl]

lemma stepEntryG_nonskip_none {τ : Type} (step : τ → JsVal → τ) (ps : List (String × τ))
    (e : String × JsVal) (hs : ¬ e.2.skip = true)
    (hl : lookupProf ps e.1 = none) :
    stepEntryG step ps e = none := by
  simp [stepEntryG, hs, hl]

lemma stepEntryG_lookup_isSome {τ : Type} (step : τ → JsVal → τ)
    (ps ps' : List (String × τ)) (e : String × JsVal) (c : String)
    (hstep : stepEntryG step ps e = some ps') :
    (lookupProf ps' c).isSome = (lookupProf ps c).isSome := by
  by_cases hs : e.2.skip
  · rw [stepEntryG_skip_eq step ps e hs] at hstep
    rw [← Option.some_inj.mp hstep]
  · cases hl : lookupProf ps e.1 with
    | none =>
      rw [stepEntryG_nonskip_none step ps e hs hl] at hstep
      exact absurd hstep (by simp)
    | some t =>
      rw [stepEntryG_nonskip_eq step ps e t hs hl] at hstep
      rw [← Option.some_inj.mp hstep, lookupProf_setProf]
      by_cases h : c = e.1
      · rw [if_pos h, h, hl]; rfl
      · rw [if_neg h]

lemma stepEntryG_isJson_mono (ps ps' : List (String × TrackJson)) (c : String)
    (e : String × JsVal) (t : TrackJson)
    (hstep : stepEntryG stepJson ps e = some ps')
    (hc : lookupProf ps c = some t) (hj : t.isJson = true) :
    ∃ t', lookupProf ps' c = some t' ∧ t'.isJson = true := by
  by_cases hs : e.2.skip
  · rw [stepEntryG_skip_eq stepJson ps e hs] at hstep
    exact ⟨t, (Option.some_inj.mp hstep) ▸ hc, hj⟩
  · cases hl : lookupProf ps e.1 with
    | none =>
      rw [stepEntryG_nonskip_none stepJson ps e hs hl] at hstep
      exact absurd hstep (by simp)
    | some t0 =>
      rw [stepEntryG_nonskip_eq stepJson ps e t0 hs hl] at hstep
      rw [← Option.some_inj.mp hstep, lookupProf_setProf]
      by_cases h : c = e.1
      · have ht0 : t0 = t := by
          rw [h] at hc; rw [hc] at hl; exact (Option.some_inj.mp hl).symm
        exact ⟨stepJson t0 e.2, by rw [if_pos h],
               stepJson_keeps_isJson t0 e.2 (ht0 ▸ hj)⟩
      · exact ⟨t, by rw [if_neg h]; exact hc, hj⟩

lemma foldlM_keeps_isJson (entries : List (String × JsVal)) :
    ∀ (ps ps' : List (String × TrackJson)) (c : String) (t : TrackJson),
    entries.foldlM (stepEntryG stepJson) ps = some ps' →
    lookupProf ps c = some t → t.isJson = true →
    ∃ t', lookupProf ps' c = some t' ∧ t'.isJson = true := by
  induction entries with
  | nil =>
    intro ps ps' c t hfold hc hj
    exact ⟨t, (Option.some_inj.mp hfold) ▸ hc, hj⟩
  | cons e es ih =>
    intro ps ps' c t hfold hc hj
    rw [List.foldlM_cons] at hfold
    cases hstep : stepEntryG stepJson ps e with
    | none => rw [hstep] at hfold; exact absurd hfold (by simp)
    | some ps1 =>
      rw [hstep] at hfold
      obtain ⟨t1, ht1, hj1⟩ := stepEntryG_isJson_mono ps ps1 c e t hstep hc hj
      exact ih ps1 ps' c t1 hfold ht1 hj1

lemma foldlM_sets_isJson (c : String) (entries : List (String × JsVal)) :
    ∀ (ps ps' : List (String × TrackJson)),
    entries.foldlM (stepEntryG stepJson) ps = some ps' →
    (∀ e ∈ entries, e.1 = c → e.2.skip = false ∧ e.2.jsonOk = true) →
    (∃ e ∈ entries, e.1 = c) →
    (lookupProf ps c).isSome →
    ∃ t', lookupProf ps' c = some t' ∧ t'.isJson = true := by
  induction entries with
  | nil => intro ps ps' _ _ hex _; exact absurd hex (by simp)
  | cons e es ih =>
    intro ps ps' hfold hall hex hdom
    rw [List.foldlM_cons] at hfold
    cases hstep : stepEntryG stepJson ps e with
    | none => rw [hstep] at hfold; exact absurd hfold (by simp)
    | some ps1 =>
      rw [hstep] at hfold
      by_cases h : e.1 = c
      · obtain ⟨hs, hjok⟩ := hall e (List.mem_cons_self _ _) h
        obtain ⟨t0, ht0⟩ := Option.isSome_iff_exists.mp hdom
        have hl : lookupProf ps e.1 = some t0 := by rw [h]; exact ht0
        have hstep2 := stepEntryG_nonskip_eq stepJson ps e t0 (by simp [hs]) hl
        rw [hstep2] at hstep
        have hps1 : ps1 = setProf ps e.1 (stepJson t0 e.2) :=
          (Option.some_inj.mp hstep).symm
        have hlook : lookupProf ps1 c = some (stepJson t0 e.2) := by
          rw [hps1, lookupProf_setProf, if_pos h.symm]
        have hj : (stepJson t0 e.2).isJson = true := by
          simp [stepJson, hjok]
        exact foldlM_keeps_isJson es ps1 ps' c (stepJson t0 e.2) hfold hlook hj
      · have hex' : ∃ e' ∈ es, e'.1 = c := by
          obtain ⟨e', he', hc'⟩ := hex
          cases List.mem_cons.mp he' with
          | inl heq => exact absurd (heq ▸ hc') h
          | inr hmem => exact ⟨e', hmem, hc'⟩
        have hdom1 : (lookupProf ps1 c).isSome := by
          rw [stepEntryG_lookup_isSome stepJson ps ps1 e c hstep]
          exact hdom
        exact ih ps1 ps' hfold
          (fun e' he' => hall e' (List.mem_cons_of_mem _ he')) hex' hdom1

/-- Claim C9: in the JSON processor, a value that passes the `JSON.parse`
check sets the structured flag, marks the column non-numeric, clears the
date flag, and short-circuits the date and numeric checks for that value —
the first conjunct shows the updated profile is independent of the value's
date and numeric host outcomes.  Consequently a profiled column all of whose
values are non-null, non-empty and JSON-parseable — e.g. all plain numeric
strings such as "7" — resolves to type JSON, never to an integer type. -/
theorem json_parseable_value_short_circuits_and_forces_json :
    (∀ (t : TrackJson) (v : JsVal), v.jsonOk = true →
      stepJson t v
        = ⟨max t.maxLength v.str.length, t.containsDecimal, true, false, true⟩) ∧
    (∀ (r0 : Record) (rest : List Record) (m : List (String × String)) (c : String),
      inferColumnTypesJson (r0 :: rest) = some m →
      c ∈ r0.map Prod.fst →
      (∀ r ∈ r0 :: rest, ∀ e ∈ r, e.1 = c → e.2.skip = false ∧ e.2.jsonOk = true) →
      lookupProf m c = some "JSON") := by
  constructor
  · intro t v hv
    simp [stepJson, hv]
  · intro r0 rest m c hinf hc hall
    obtain ⟨ps, hps, hm⟩ : ∃ ps,
        analyzeG stepJson initJson (r0 :: rest) = some ps
          ∧ m = ps.map (fun p => (p.1, resolveJson p.2)) := by
      cases han : analyzeG stepJson initJson (r0 :: rest) with
      | none =>
        rw [inferColumnTypesJson, han] at hinf
        exact absurd hinf (by simp)
      | some ps =>
        rw [inferColumnTypesJson, han] at hinf
        exact ⟨ps, rfl, (Option.some_inj.mp hinf).symm⟩
    have hps' : (r0 :: rest).foldlM
        (fun ps (r : Record) => r.foldlM (stepEntryG stepJson) ps)
        (initProfiles initJson r0) = some ps := hps
    rw [analyzeG_foldlM_flat] at hps'
    have hallf : ∀ e ∈ flatNonSkip (r0 :: rest), e.1 = c →
        e.2.skip = false ∧ e.2.jsonOk = true := by
      intro e he hec
      have he2 : e ∈ ((r0 :: rest).map
          (fun r => r.filter (fun e => !e.2.skip))).flatten := he
      obtain ⟨l, hl, hel⟩ := List.mem_flatten.mp he2
      obtain ⟨r, hr, rfl⟩ := List.mem_map.mp hl
      exact hall r hr e (List.mem_of_mem_filter hel) hec
    have hex : ∃ e ∈ flatNonSkip (r0 :: rest), e.1 = c := by
      obtain ⟨e0, he0, hee⟩ := List.mem_map.mp hc
      have hsk : e0.2.skip = false ∧ e0.2.jsonOk = true :=
        hall r0 (List.mem_cons_self _ _) e0 he0 hee
      refine ⟨e0, ?_, hee⟩
      have : e0 ∈ r0.filter (fun e => !e.2.skip) :=
        List.mem_filter.mpr ⟨he0, by simp [hsk.1]⟩
      exact List.mem_flatten.mpr
        ⟨r0.filter (fun e => !e.2.skip),
         List.mem_map.mpr ⟨r0, List.mem_cons_self _ _, rfl⟩, this⟩
    have hdom : (lookupProf (initProfiles initJson r0) c).isSome := by
      rw [initProfiles_keys, lookupProf_init_isSome]
      left
      exact List.mem_map.mpr (by
        obtain ⟨e0, he0, hee⟩ := List.mem_map.mp hc
        exact ⟨e0, he0, hee⟩)
    obtain ⟨t', hlook, hj⟩ := foldlM_sets_isJson c (flatNonSkip (r0 :: rest))
      (initProfiles initJson r0) ps hps' hallf hex hdom
    rw [hm, lookupProf_map, hlook]
    simp [resolveJson, hj]

/-- Witness for C9: a single record whose only value is the numeric string
"7" with a successful JSON parse yields type JSON for its column, even
though the value also date- and number-parses. -/
theorem json_parseable_value_short_circuits_witness :
    lookupProf [("n", "JSON")] "n" = some "JSON" :=
  json_parseable_value_short_circuits_and_forces_json.2
    [("n", ⟨false, "7", true, true, true, false⟩)] [] [("n", "JSON")] "n"
    (by decide) (by decide) (by decide)

lemma runTransform_foldl_spec (cfg : Config) (astify : String → Option Ast)
    (sqlify : Ast → String) (stmts : List String) :
    ∀ acc : List String × Nat × MergeState,
    ((stmts.foldl (stepStmt cfg astify sqlify) acc).1
        = acc.1 ++ stmts.map (emitOne cfg astify sqlify))
    ∧ ((stmts.foldl (stepStmt cfg astify sqlify) acc).2.1
        = acc.2.1 + (stmts.filter (fun s => (astify s).isNone)).length) := by
  induction stmts with
  | nil => intro acc; simp
  | cons s rest ih =>
    intro acc
    rw [List.foldl_cons]
    obtain ⟨ih1, ih2⟩ := ih (stepStmt cfg astify sqlify acc s)
    constructor
    · rw [ih1]
      cases ha : astify s with
      | none => simp [stepStmt, ha, emitOne]
      | some ast =>
        by_cases hc : ast.isCreate <;> simp [stepStmt, ha, emitOne, hc]
    · rw [ih2]
      cases ha : astify s with
      | none => simp [stepStmt, ha]; omega
      | some ast =>
        by_cases hc : ast.isCreate <;> simp [stepStmt, ha, hc]

/-- Claim C7: a structural parse failure on an individual statement never
aborts the transformation loop: the output has one entry per input
statement, the entry at a failing statement's index is the original text
unmodified, and the warning count equals the number of failing statements
(one warning per failure); with merge mode off the whole
`transformStatements` call still returns normally. -/
theorem parse_failure_passes_through_and_run_continues :
    ∀ (cfg : Config) (astify : String → Option Ast) (sqlify : Ast → String)
      (stmts : List String),
    (runTransform cfg astify sqlify stmts).1.length = stmts.length ∧
    (∀ (i : Nat) (s : String), stmts[i]? = some s → astify s = none →
        (runTransform cfg astify sqlify stmts).1[i]? = some s) ∧
    (runTransform cfg astify sqlify stmts).2.1
      = (stmts.filter (fun s => (astify s).isNone)).length ∧
    (cfg.mergeSql = false →
      transformStatements cfg astify sqlify stmts
        = some (runTransform cfg astify sqlify stmts).1) := by
  intro cfg astify sqlify stmts
  obtain ⟨h1, h2⟩ := runTransform_foldl_spec cfg astify sqlify stmts ([], 0, ⟨[], []⟩)
  have houts : (runTransform cfg astify sqlify stmts).1
      = stmts.map (emitOne cfg astify sqlify) := by
    simpa [runTransform] using h1
  refine ⟨by rw [houts]; simp, ?_, by simpa [runTransform] using h2, ?_⟩
  · intro i s hi ha
    rw [houts, List.getElem?_map, hi]
    simp [emitOne, ha]
  · intro hm
    simp [transformStatements, hm]

/-- Witness for C7: a single unparseable statement is passed through at its
index. -/
theorem parse_failure_passes_through_witness :
    (runTransform ⟨"", false⟩ (fun _ => none) (fun _ => "") ["BROKEN SQL"]).1[0]?
      = some "BROKEN SQL" :=
  (parse_failure_passes_through_and_run_continues ⟨"", false⟩ (fun _ => none)
    (fun _ => "") ["BROKEN SQL"]).2.1 0 "BROKEN SQL" rfl rfl

lemma append_lit_merge (x : String) (a b c : String) (h : a ++ b = c) :
    x ++ a ++ b = x ++ c := by rw [String.append_assoc, h]

/-- Claim C8 (amended): the assembled document is exactly the banner comment
block (tool name, timestamp, target encoding), a blank line, the
`SET NAMES utf8mb4;` encoding pragma and the `SET FOREIGN_KEY_CHECKS = 0;`
integrity-disable pragma, then the statements joined with the literal
separator ";" + blank line, and it ends with the integrity-enable pragma.
There is NO normalization of an existing trailing terminator: a statement
already ending in ";" is emitted with a doubled ";;" (see
`generateOutput_duplicates_existing_terminator`), and the final statement is
followed directly by the newline of the closing pragma. -/
theorem generateOutput_assembles_banner_pragmas_join_and_suffix :
    ∀ (ts enc : String) (stmts : List String),
    generateOutput ts enc stmts
      = "-- Generated by DB Blender\n-- Timestamp: " ++ ts
        ++ "\n-- Encoding: " ++ enc
        ++ "\n\nSET NAMES utf8mb4;\nSET FOREIGN_KEY_CHECKS = 0;\n"
        ++ String.intercalate ";\n\n" stmts
        ++ "\nSET FOREIGN_KEY_CHECKS = 1;" := by
  intro ts enc stmts
  simp [generateOutput, String.intercalate, String.intercalate.go,
        ← String.append_assoc]
  rw [append_lit_merge _ "\n" "-- Encoding: " "\n-- Encoding: " rfl,
      append_lit_merge _ "\n" "\n" "\n\n" rfl,
      append_lit_merge _ "\n\n" "SET NAMES utf8mb4;" "\n\nSET NAMES utf8mb4;" rfl,
      append_lit_merge _ "\n\nSET NAMES utf8mb4;" "\n" "\n\nSET NAMES utf8mb4;\n" rfl,
      append_lit_merge _ "\n\nSET NAMES utf8mb4;\n" "SET FOREIGN_KEY_CHECKS = 0;"
        "\n\nSET NAMES utf8mb4;\nSET FOREIGN_KEY_CHECKS = 0;" rfl,
      append_lit_merge _ "\n\nSET NAMES utf8mb4;\nSET FOREIGN_KEY_CHECKS = 0;" "\n"
        "\n\nSET NAMES utf8mb4;\nSET FOREIGN_KEY_CHECKS = 0;\n" rfl]

/-- Counterexample to C8 as stated: a statement that already ends with ";"
is joined with the ";\n\n" separator unchanged, producing a doubled ";;" —
the claimed terminator normalization does not exist. -/
theorem generateOutput_duplicates_existing_terminator :
    generateOutput "T0" "utf8mb4" ["SELECT 1;", "SELECT 2"]
      = "-- Generated by DB Blender\n-- Timestamp: T0\n-- Encoding: utf8mb4\n\nSET NAMES utf8mb4;\nSET FOREIGN_KEY_CHECKS = 0;\nSELECT 1;;\n\nSELECT 2\nSET FOREIGN_KEY_CHECKS = 1;"
    ∧ includesStr (generateOutput "T0" "utf8mb4" ["SELECT 1;", "SELECT 2"])
        "SELECT 1;;" = true := by
  constructor
  · rfl
  · decide

/-- Claim C10: in merge mode, when the configured prefix matches a CREATE
statement's table name, the table is registered in both registries under its
original pre-strip name (`tableName` is captured before the AST is mutated)
while the emitted text carries only the stripped name.  Consequently — for a
single such statement with no foreign keys whose re-serialisation starts
with CREATE TABLE and no longer contains the pre-strip pattern — the
dependency-ordered output is empty: the dependency visit finds no statement
matching the registered name, and the trailing pass keeps only statements
that do not start with CREATE TABLE, so the table's CREATE statement is
dropped from the output entirely. -/
theorem strip_registration_mismatch_drops_create_statement :
    ∀ (cfg : Config) (astify : String → Option Ast) (sqlify : Ast → String)
      (s : String) (ast : Ast),
    cfg.mergeSql = true →
    cfg.stripPre ≠ "" →
    jsStartsWith ast.table cfg.stripPre = true →
    astify s = some ast →
    ast.isCreate = true →
    extractFks ast.defs = [] →
    findStmt [sqlify { ast with table := stripName cfg ast.table }] ast.table
      = none →
    trailingKeep (sqlify { ast with table := stripName cfg ast.table }) = false →
    (runTransform cfg astify sqlify [s]).2.2
        = ⟨[ast.table], [(ast.table, [])]⟩ ∧
    transformStatements cfg astify sqlify [s] = some [] := by
  intro cfg astify sqlify s ast hm hp hsw hast hcreate hfk hfind htrail
  have hrun : runTransform cfg astify sqlify [s]
      = ([sqlify { ast with table := stripName cfg ast.table }], 0,
         ⟨[ast.table], [(ast.table, [])]⟩) := by
    simp [runTransform, stepStmt, hast, hcreate, hfk, insertName, setDep]
  refine ⟨by rw [hrun], ?_⟩
  rw [transformStatements, hrun]
  simp [hm, orderByDependencies, fuelBound, regNames, visitGo, depsOf,
        insertName, hfind, htrail, List.filter]

/-- Witness for C10: prefix `old_` on table `old_users`, parse and
re-serialisation oracles matching `node-sql-parser` behaviour on this
statement; the table is registered as `old_users` but the output of the
merge is empty. -/
theorem strip_registration_mismatch_witness :
    (runTransform ⟨"old_", true⟩
        (fun s => if s = "CREATE TABLE `old_users` (`id` INT);"
                  then some ⟨true, "old_users", []⟩ else none)
        (fun a => "CREATE TABLE `" ++ a.table ++ "` (`id` INT)")
        ["CREATE TABLE `old_users` (`id` INT);"]).2.2
      = ⟨["old_users"], [("old_users", [])]⟩ ∧
    transformStatements ⟨"old_", true⟩
        (fun s => if s = "CREATE TABLE `old_users` (`id` INT);"
                  then some ⟨true, "old_users", []⟩ else none)
        (fun a => "CREATE TABLE `" ++ a.table ++ "` (`id` INT)")
        ["CREATE TABLE `old_users` (`id` INT);"]
      = some [] :=
  strip_registration_mismatch_drops_create_statement ⟨"old_", true⟩ _ _
    "CREATE TABLE `old_users` (`id` INT);" ⟨true, "old_users", []⟩
    rfl (by decide) (by decide) (by decide) rfl rfl (by decide) (by decide)

lemma insertName_extends (v : List String) (t : String) : v <+: insertName v t := by
  unfold insertName
  split
  · exact List.prefix_refl v
  · exact List.prefix_append v [t]

lemma mem_insertName_self (v : List String) (t : String) : t ∈ insertName v t := by
  unfold insertName
  split
  · assumption
  · simp

lemma mem_insertName (v : List String) (t x : String) :
    x ∈ insertName v t ↔ x ∈ v ∨ x = t := by
  unfold insertName
  split
  · rename_i h
    constructor
    · exact Or.inl
    · rintro (hx | rfl)
      · exact hx
      · exact h
  · simp

lemma insertName_nodup (v : List String) (t : String) (h : v.Nodup) :
    (insertName v t).Nodup := by
  unfold insertName
  split
  · exact h
  · rename_i ht
    simpa [List.nodup_append] using ⟨h, ht⟩

lemma visitGo_mono (st : MergeState) (stmts : List String) :
    ∀ (n : Nat) (ds : List String) (acc r : VO),
    visitGo st stmts n ds acc = some r →
    (acc.1 <+: r.1) ∧ (acc.2 <+: r.2) ∧ (∀ d ∈ ds, d ∈ r.1) := by
  intro n
  induction n with
  | zero =>
    intro ds
    induction ds with
    | nil =>
      intro acc r h
      have hh : acc = r := by simpa [visitGo] using h
      subst hh
      exact ⟨List.prefix_refl _, List.prefix_refl _, by simp⟩
    | cons t rest ih =>
      intro acc r h
      by_cases hv : t ∈ acc.1
      · have h' : visitGo st stmts 0 rest acc = some r := by
          simpa [visitGo, hv] using h
        obtain ⟨h1, h2, h3⟩ := ih acc r h'
        exact ⟨h1, h2, by
          intro d hd
          rcases List.mem_cons.mp hd with rfl | hd'
          · exact h1.subset hv
          · exact h3 d hd'⟩
      · simp [visitGo, hv] at h
  | succ m ihm =>
    intro ds
    induction ds with
    | nil =>
      intro acc r h
      have hh : acc = r := by simpa [visitGo] using h
      subst hh
      exact ⟨List.prefix_refl _, List.prefix_refl _, by simp⟩
    | cons t rest ih =>
      intro acc r h
      by_cases hv : t ∈ acc.1
      · have h' : visitGo st stmts (Nat.succ m) rest acc = some r := by
          simpa [visitGo, hv] using h
        obtain ⟨h1, h2, h3⟩ := ih acc r h'
        exact ⟨h1, h2, by
          intro d hd
          rcases List.mem_cons.mp hd with rfl | hd'
          · exact h1.subset hv
          · exact h3 d hd'⟩
      · cases hcall : visitGo st stmts m (depsOf st t) acc with
        | none => simp [visitGo, hv, hcall] at h
        | some vo =>
          have h' : visitGo st stmts (Nat.succ m) rest
              (insertName vo.1 t, vo.2 ++ (findStmt stmts t).toList) = some r := by
            simpa [visitGo, hv, hcall] using h
          obtain ⟨g1, g2, g3⟩ := ihm (depsOf st t) acc vo hcall
          obtain ⟨h1, h2, h3⟩ := ih _ r h'
          refine ⟨?_, ?_, ?_⟩
          · exact g1.trans ((insertName_extends vo.1 t).trans h1)
          · exact g2.trans ((List.prefix_append vo.2 _).trans h2)
          · intro d hd
            rcases List.mem_cons.mp hd with rfl | hd'
            · exact h1.subset (mem_insertName_self vo.1 d)
            · exact h3 d hd'

lemma insertName_eq_append (v : List String) (t : String) (h : t ∉ v) :
    insertName v t = v ++ [t] := by
  unfold insertName
  rw [if_neg h]

lemma filterMap_singleton {α β : Type} (f : α → Option β) (a : α) :
    List.filterMap f [a] = (f a).toList := by
  cases h : f a <;> simp [List.filterMap, h]

lemma visitGo_nodup (st : MergeState) (stmts : List String) :
    ∀ (n : Nat) (ds : List String) (acc r : VO),
    visitGo st stmts n ds acc = some r → acc.1.Nodup → r.1.Nodup := by
  intro n
  induction n with
  | zero =>
    intro ds
    induction ds with
    | nil =>
      intro acc r h hn
      have hh : acc = r := by simpa [visitGo] using h
      exact hh ▸ hn
    | cons t rest ih =>
      intro acc r h hn
      by_cases hv : t ∈ acc.1
      · exact ih acc r (by simpa [visitGo, hv] using h) hn
      · simp [visitGo, hv] at h
  | succ m ihm =>
    intro ds
    induction ds with
    | nil =>
      intro acc r h hn
      have hh : acc = r := by simpa [visitGo] using h
      exact hh ▸ hn
    | cons t rest ih =>
      intro acc r h hn
      by_cases hv : t ∈ acc.1
      · exact ih acc r (by simpa [visitGo, hv] using h) hn
      · cases hcall : visitGo st stmts m (depsOf st t) acc with
        | none => simp [visitGo, hv, hcall] at h
        | some vo =>
          have h' : visitGo st stmts (Nat.succ m) rest
              (insertName vo.1 t, vo.2 ++ (findStmt stmts t).toList) = some r := by
            simpa [visitGo, hv, hcall] using h
          exact ih _ r h' (insertName_nodup vo.1 t (ihm _ acc vo hcall hn))

lemma visitGo_mark_origin (st : MergeState) (stmts : List String) :
    ∀ (n : Nat) (ds : List String) (acc r : VO),
    visitGo st stmts n ds acc = some r →
    ∀ y ∈ r.1, y ∈ acc.1 ∨ ∃ d ∈ ds, Reach st d y := by
  intro n
  induction n with
  | zero =>
    intro ds
    induction ds with
    | nil =>
      intro acc r h y hy
      have hh : acc = r := by simpa [visitGo] using h
      exact Or.inl (hh ▸ hy)
    | cons t rest ih =>
      intro acc r h y hy
      by_cases hv : t ∈ acc.1
      · rcases ih acc r (by simpa [visitGo, hv] using h) y hy with h1 | ⟨d, hd, hr⟩
        · exact Or.inl h1
        · exact Or.inr ⟨d, List.mem_cons_of_mem _ hd, hr⟩
      · simp [visitGo, hv] at h
  | succ m ihm =>
    intro ds
    induction ds with
    | nil =>
      intro acc r h y hy
      have hh : acc = r := by simpa [visitGo] using h
      exact Or.inl (hh ▸ hy)
    | cons t rest ih =>
      intro acc r h y hy
      by_cases hv : t ∈ acc.1
      · rcases ih acc r (by simpa [visitGo, hv] using h) y hy with h1 | ⟨d, hd, hr⟩
        · exact Or.inl h1
        · exact Or.inr ⟨d, List.mem_cons_of_mem _ hd, hr⟩
      · cases hcall : visitGo st stmts m (depsOf st t) acc with
        | none => simp [visitGo, hv, hcall] at h
        | some vo =>
          have h' : visitGo st stmts (Nat.succ m) rest
              (insertName vo.1 t, vo.2 ++ (findStmt stmts t).toList) = some r := by
            simpa [visitGo, hv, hcall] using h
          rcases ih _ r h' y hy with h1 | ⟨d, hd, hr⟩
          · rcases (mem_insertName vo.1 t y).mp h1 with h2 | rfl
            · rcases ihm _ acc vo hcall y h2 with h3 | ⟨d, hd, hr⟩
              · exact Or.inl h3
              · exact Or.inr ⟨t, List.mem_cons_self _ _, Reach.step hd hr⟩
            · exact Or.inr ⟨y, List.mem_cons_self _ _, Reach.refl y⟩
          · exact Or.inr ⟨d, List.mem_cons_of_mem _ hd, hr⟩

lemma reach_rank_le (st : MergeState) (rk : String → Nat)
    (hrk : ∀ t d, d ∈ depsOf st t → rk d < rk t) :
    ∀ a b, Reach st a b → rk b ≤ rk a := by
  intro a b h
  induction h with
  | refl t => exact le_refl _
  | step hb _ ih => exact le_trans ih (le_of_lt (hrk _ _ hb))

lemma visitGo_marked_deps (st : MergeState) (stmts : List String) :
    ∀ (n : Nat) (ds : List String) (acc r : VO),
    visitGo st stmts n ds acc = some r →
    ∀ y ∈ r.1, y ∈ acc.1 ∨ ∀ d ∈ depsOf st y, List.Sublist [d, y] r.1 := by
  intro n
  induction n with
  | zero =>
    intro ds
    induction ds with
    | nil =>
      intro acc r h y hy
      have hh : acc = r := by simpa [visitGo] using h
      exact Or.inl (hh ▸ hy)
    | cons t rest ih =>
      intro acc r h y hy
      by_cases hv : t ∈ acc.1
      · exact ih acc r (by simpa [visitGo, hv] using h) y hy
      · simp [visitGo, hv] at h
  | succ m ihm =>
    intro ds
    induction ds with
    | nil =>
      intro acc r h y hy
      have hh : acc = r := by simpa [visitGo] using h
      exact Or.inl (hh ▸ hy)
    | cons t rest ih =>
      intro acc r h y hy
      by_cases hv : t ∈ acc.1
      · exact ih acc r (by simpa [visitGo, hv] using h) y hy
      · cases hcall : visitGo st stmts m (depsOf st t) acc with
        | none => simp [visitGo, hv, hcall] at h
        | some vo =>
          have h' : visitGo st stmts (Nat.succ m) rest
              (insertName vo.1 t, vo.2 ++ (findStmt stmts t).toList) = some r := by
            simpa [visitGo, hv, hcall] using h
          have hpre : (insertName vo.1 t) <+: r.1 :=
            (visitGo_mono st stmts (Nat.succ m) rest _ r h').1
          rcases ih _ r h' y hy with h1 | hprop
          · by_cases hy1 : y ∈ vo.1
            · rcases ihm _ acc vo hcall y hy1 with h3 | hprop2
              · exact Or.inl h3
              · refine Or.inr (fun d hd => ?_)
                exact ((hprop2 d hd).trans
                  (insertName_extends vo.1 t).sublist).trans hpre.sublist
            · have hyt : y = t := ((mem_insertName vo.1 t y).mp h1).resolve_left hy1
              subst hyt
              refine Or.inr (fun d hd => ?_)
              have hdv : d ∈ vo.1 :=
                (visitGo_mono st stmts m (depsOf st y) acc vo hcall).2.2 d hd
              have hsub : List.Sublist [d, y] (vo.1 ++ [y]) :=
                List.Sublist.append (List.singleton_sublist.mpr hdv)
                  (List.Sublist.refl [y])
              rw [← insertName_eq_append vo.1 y hy1] at hsub
              exact hsub.trans hpre.sublist
          · exact Or.inr hprop

lemma visitGo_ordered_inv (st : MergeState) (stmts : List String)
    (rk : String → Nat) (hrk : ∀ t d, d ∈ depsOf st t → rk d < rk t) :
    ∀ (n : Nat) (ds : List String) (acc r : VO),
    visitGo st stmts n ds acc = some r →
    acc.2 = acc.1.filterMap (findStmt stmts) →
    r.2 = r.1.filterMap (findStmt stmts) := by
  intro n
  induction n with
  | zero =>
    intro ds
    induction ds with
    | nil =>
      intro acc r h hinv
      have hh : acc = r := by simpa [visitGo] using h
      exact hh ▸ hinv
    | cons t rest ih =>
      intro acc r h hinv
      by_cases hv : t ∈ acc.1
      · exact ih acc r (by simpa [visitGo, hv] using h) hinv
      · simp [visitGo, hv] at h
  | succ m ihm =>
    intro ds
    induction ds with
    | nil =>
      intro acc r h hinv
      have hh : acc = r := by simpa [visitGo] using h
      exact hh ▸ hinv
    | cons t rest ih =>
      intro acc r h hinv
      by_cases hv : t ∈ acc.1
      · exact ih acc r (by simpa [visitGo, hv] using h) hinv
      · cases hcall : visitGo st stmts m (depsOf st t) acc with
        | none => simp [visitGo, hv, hcall] at h
        | some vo =>
          have h' : visitGo st stmts (Nat.succ m) rest
              (insertName vo.1 t, vo.2 ++ (findStmt stmts t).toList) = some r := by
            simpa [visitGo, hv, hcall] using h
          have hvoinv : vo.2 = vo.1.filterMap (findStmt stmts) :=
            ihm _ acc vo hcall hinv
          have htvo : t ∉ vo.1 := by
            intro htv
            rcases visitGo_mark_origin st stmts m (depsOf st t) acc vo hcall t htv with
              h1 | ⟨d, hd, hr⟩
            · exact hv h1
            · have h2 : rk t ≤ rk d := reach_rank_le st rk hrk d t hr
              have h3 : rk d < rk t := hrk t d hd
              omega
          apply ih _ r h'
          show vo.2 ++ (findStmt stmts t).toList
              = (insertName vo.1 t).filterMap (findStmt stmts)
          rw [insertName_eq_append vo.1 t htvo, List.filterMap_append,
              filterMap_singleton, hvoinv]

lemma visitGo_total (st : MergeState) (stmts : List String) (rk : String → Nat)
    (hrk : ∀ t d, d ∈ depsOf st t → rk d < rk t) :
    ∀ (n : Nat) (ds : List String) (acc : VO),
    (∀ d ∈ ds, rk d < n) → (visitGo st stmts n ds acc).isSome := by
  intro n
  induction n with
  | zero =>
    intro ds
    induction ds with
    | nil => intro acc _; simp [visitGo]
    | cons t rest _ =>
      intro acc hlt
      exact absurd (hlt t (by simp)) (by omega)
  | succ m ihm =>
    intro ds
    induction ds with
    | nil => intro acc _; simp [visitGo]
    | cons t rest ih =>
      intro acc hlt
      by_cases hv : t ∈ acc.1
      · rw [show visitGo st stmts (Nat.succ m) (t :: rest) acc
            = visitGo st stmts (Nat.succ m) rest acc from by simp [visitGo, hv]]
        exact ih acc (fun d hd => hlt d (List.mem_cons_of_mem _ hd))
      · have hcall : (visitGo st stmts m (depsOf st t) acc).isSome :=
          ihm (depsOf st t) acc (fun d hd => by
            have h1 : rk d < rk t := hrk t d hd
            have h2 : rk t < m + 1 := hlt t (by simp)
            omega)
        obtain ⟨vo, hvo⟩ := Option.isSome_iff_exists.mp hcall
        rw [show visitGo st stmts (Nat.succ m) (t :: rest) acc
            = visitGo st stmts (Nat.succ m) rest
                (insertName vo.1 t, vo.2 ++ (findStmt stmts t).toList) from by
          simp [visitGo, hv, hvo]]
        exact ih _ (fun d hd => hlt d (List.mem_cons_of_mem _ hd))

lemma depsOf_mem_deps (st : MergeState) (t d : String) (hd : d ∈ depsOf st t) :
    ∃ p ∈ st.deps, p.1 = t ∧ d ∈ p.2 := by
  unfold depsOf at hd
  cases hf : st.deps.find? (fun p => p.1 == t) with
  | none => rw [hf] at hd; simp at hd
  | some p =>
    rw [hf] at hd
    exact ⟨p, List.mem_of_find?_eq_some hf, by simpa using List.find?_some hf, hd⟩

lemma depsOf_mem_regNames (st : MergeState) (t d : String) (hd : d ∈ depsOf st t) :
    d ∈ regNames st := by
  obtain ⟨p, hp, _, hdp⟩ := depsOf_mem_deps st t d hd
  unfold regNames
  exact List.mem_append.mpr (Or.inr
    (List.mem_flatten.mpr ⟨p.2, List.mem_map.mpr ⟨p, hp, rfl⟩, hdp⟩))

lemma hrank_rel (st : MergeState) (rank : String → Nat)
    (hr : ∀ p ∈ st.deps, ∀ d ∈ p.2, rank d < rank p.1) :
    ∀ t d, d ∈ depsOf st t → rank d < rank t := by
  intro t d hd
  obtain ⟨p, hp, hpt, hdp⟩ := depsOf_mem_deps st t d hd
  exact hpt ▸ hr p hp d hdp

lemma rankC_edge (st : MergeState) (rank : String → Nat)
    (hrel : ∀ t d, d ∈ depsOf st t → rank d < rank t) :
    ∀ t d, d ∈ depsOf st t → rankC st rank d < rankC st rank t := by
  intro t d hd
  have hdt : rank d < rank t := hrel t d hd
  have hsubset : (((regNames st).map rank).toFinset.filter (fun r => r < rank d))
      ⊆ (((regNames st).map rank).toFinset.filter (fun r => r < rank t)) := by
    intro x hx
    rw [Finset.mem_filter] at hx ⊢
    exact ⟨hx.1, lt_trans hx.2 hdt⟩
  apply Finset.card_lt_card
  rw [Finset.ssubset_iff_of_subset hsubset]
  refine ⟨rank d, ?_, ?_⟩
  · rw [Finset.mem_filter]
    exact ⟨List.mem_toFinset.mpr
      (List.mem_map.mpr ⟨d, depsOf_mem_regNames st t d hd, rfl⟩), hdt⟩
  · rw [Finset.mem_filter]
    rintro ⟨-, h2⟩
    exact lt_irrefl _ h2

lemma rankC_le_len (st : MergeState) (rank : String → Nat) (x : String) :
    rankC st rank x ≤ (regNames st).length := by
  unfold rankC
  refine le_trans (Finset.card_filter_le _ _) (le_trans (List.toFinset_card_le _) ?_)
  rw [List.length_map]

lemma reach_endpoint (st : MergeState) (a b : String) (h : Reach st a b) :
    b = a ∨ b ∈ (st.deps.map Prod.snd).flatten := by
  induction h with
  | refl t => exact Or.inl rfl
  | step hb _ ih =>
    rename_i x y z hyz
    rcases ih with rfl | hm
    · right
      obtain ⟨p, hp, _, hdp⟩ := depsOf_mem_deps _ _ _ hb
      exact List.mem_flatten.mpr ⟨p.2, List.mem_map.mpr ⟨p, hp, rfl⟩, hdp⟩
    · exact Or.inr hm

lemma orderBy_success (st : MergeState) (stmts : List String) (rank : String → Nat)
    (hr : ∀ p ∈ st.deps, ∀ d ∈ p.2, rank d < rank p.1) :
    ∃ (v ordered : List String),
      visitGo st stmts (fuelBound st) st.tables ([], []) = some (v, ordered) ∧
      orderByDependencies st stmts
        = some (ordered ++ stmts.filter trailingKeep) ∧
      ordered = v.filterMap (findStmt stmts) ∧ v.Nodup ∧
      (∀ t ∈ st.tables, t ∈ v) ∧
      (∀ y ∈ v, ∀ d ∈ depsOf st y, List.Sublist [d, y] v) ∧
      (∀ y ∈ v, y ∈ st.tables ++ (st.deps.map Prod.snd).flatten) := by
  have hrel := hrank_rel st rank hr
  have hrk := rankC_edge st rank hrel
  have htot := visitGo_total st stmts (rankC st rank) hrk (fuelBound st)
    st.tables ([], [])
    (fun d _ => lt_of_le_of_lt (rankC_le_len st rank d) (by unfold fuelBound; omega))
  obtain ⟨⟨v, ordered⟩, hvo⟩ := Option.isSome_iff_exists.mp htot
  refine ⟨v, ordered, hvo, ?_, ?_, ?_, ?_, ?_, ?_⟩
  · unfold orderByDependencies
    rw [hvo]
  · exact (visitGo_ordered_inv st stmts (rankC st rank) hrk _ _ _ _ hvo rfl).symm ▸ rfl
  · exact visitGo_nodup st stmts _ _ _ _ hvo List.nodup_nil
  · exact fun t ht => (visitGo_mono st stmts _ _ _ _ hvo).2.2 t ht
  · intro y hy d hd
    rcases visitGo_marked_deps st stmts _ _ _ _ hvo y hy with h1 | h2
    · simp at h1
    · exact h2 d hd
  · intro y hy
    rcases visitGo_mark_origin st stmts _ _ _ _ hvo y hy with h1 | ⟨d, hdt, hrch⟩
    · simp at h1
    · rcases reach_endpoint st d y hrch with rfl | hmem
      · exact List.mem_append.mpr (Or.inl hdt)
      · exact List.mem_append.mpr (Or.inr hmem)

lemma countP_congr_list {α : Type} (l : List α) (p q : α → Bool)
    (h : ∀ a ∈ l, p a = q a) : l.countP p = l.countP q := by
  induction l with
  | nil => rfl
  | cons a l ih =>
    rw [List.countP_cons, List.countP_cons, h a (List.mem_cons_self _ _),
        ih (fun a ha => h a (List.mem_cons_of_mem _ ha))]

lemma count_filterMap_str (f : String → Option String) (l : List String) (b : String) :
    (l.filterMap f).count b = l.countP (fun a => f a == some b) := by
  induction l with
  | nil => rfl
  | cons a l ih =>
    cases hf : f a with
    | none =>
      rw [List.filterMap_cons_none hf, List.countP_cons, ih, hf]
      simp
    | some b' =>
      rw [List.filterMap_cons_some hf, List.count_cons, List.countP_cons, ih, hf]
      by_cases hb : b' = b
      · simp [hb]
      · simp [hb]

/-- Claim C2: for every dependency graph with no cycles — witnessed by a
rank function strictly decreasing along every recorded dependency edge —
the merger succeeds, and in its output every registered table's matching
definition statement appears strictly after the matching statement of each
table it references.  Second conjunct: the claim's concrete scenario —
`orders` references `customers`, registration order `[orders, customers]` —
yields the output order `[customers, orders]`. -/
theorem merger_topological_order_acyclic :
    (∀ (st : MergeState) (stmts : List String) (rank : String → Nat),
      (∀ p ∈ st.deps, ∀ d ∈ p.2, rank d < rank p.1) →
      ∃ L, orderByDependencies st stmts = some L ∧
        ∀ t d s_t s_d, t ∈ st.tables → d ∈ depsOf st t →
          findStmt stmts t = some s_t → findStmt stmts d = some s_d →
          List.Sublist [s_d, s_t] L) ∧
    orderByDependencies
      ⟨["orders", "customers"], [("orders", ["customers"]), ("customers", [])]⟩
      ["CREATE TABLE `orders` (`a` INT)", "CREATE TABLE `customers` (`b` INT)"]
      = some ["CREATE TABLE `customers` (`b` INT)",
              "CREATE TABLE `orders` (`a` INT)"] := by
  constructor
  · intro st stmts rank hr
    obtain ⟨v, ordered, _, hOrd, hfm, _, htab, hdeps, _⟩ :=
      orderBy_success st stmts rank hr
    refine ⟨ordered ++ stmts.filter trailingKeep, hOrd, ?_⟩
    intro t d s_t s_d ht hd hst hsd
    have hsub : List.Sublist [d, t] v := hdeps t (htab t ht) d hd
    have hsub2 : List.Sublist [s_d, s_t] ordered := by
      rw [hfm]
      have h2 := List.Sublist.filterMap (findStmt stmts) hsub
      rwa [show List.filterMap (findStmt stmts) [d, t] = [s_d, s_t] from by
        rw [List.filterMap_cons_some hsd, List.filterMap_cons_some hst,
            List.filterMap_nil]] at h2
    exact hsub2.trans (List.sublist_append_left _ _)
  · simp [orderByDependencies, visitGo, fuelBound, regNames, depsOf, insertName,
          findStmt, includesStr, includesChars, tablePat]
    decide

/-- Witness for C2's general conjunct at the two-table scenario, with the
rank function customers 0, orders 1. -/
theorem merger_topological_order_witness :
    ∃ L, orderByDependencies
        ⟨["orders", "customers"], [("orders", ["customers"]), ("customers", [])]⟩
        ["CREATE TABLE `orders` (`a` INT)", "CREATE TABLE `customers` (`b` INT)"]
        = some L ∧
      ∀ t d s_t s_d,
        t ∈ (⟨["orders", "customers"],
              [("orders", ["customers"]), ("customers", [])]⟩ : MergeState).tables →
        d ∈ depsOf ⟨["orders", "customers"],
              [("orders", ["customers"]), ("customers", [])]⟩ t →
        findStmt ["CREATE TABLE `orders` (`a` INT)",
                  "CREATE TABLE `customers` (`b` INT)"] t = some s_t →
        findStmt ["CREATE TABLE `orders` (`a` INT)",
                  "CREATE TABLE `customers` (`b` INT)"] d = some s_d →
        List.Sublist [s_d, s_t] L :=
  merger_topological_order_acyclic.1
    ⟨["orders", "customers"], [("orders", ["customers"]), ("customers", [])]⟩
    ["CREATE TABLE `orders` (`a` INT)", "CREATE TABLE `customers` (`b` INT)"]
    (fun t => if t = "orders" then 1 else 0) (by decide)

/-- Claim C3 (amended): for every dependency graph WITHOUT cycles —
witnessed by an edge-decreasing rank — `order` terminates and emits each
registered table's definition statement exactly once (under well-formed
matching: the table's statement is matched by no other registered name and
starts with CREATE TABLE).  The original claim's "including graphs
containing cycles" fails: the visited mark is applied only after a table's
dependencies are fully processed, so on a cycle the recursion re-enters the
tables currently being processed and never returns, overflowing the call
stack and aborting the run — see `merger_cycle_aborts`. -/
theorem merger_acyclic_terminates_and_emits_once :
    ∀ (st : MergeState) (stmts : List String) (rank : String → Nat),
    (∀ p ∈ st.deps, ∀ d ∈ p.2, rank d < rank p.1) →
    ∃ L, orderByDependencies st stmts = some L ∧
      ∀ t s, t ∈ st.tables → findStmt stmts t = some s →
        trailingKeep s = false →
        (∀ x ∈ st.tables ++ (st.deps.map Prod.snd).flatten,
          findStmt stmts x = some s → x = t) →
        L.count s = 1 := by
  intro st stmts rank hr
  obtain ⟨v, ordered, _, hOrd, hfm, hnd, htab, _, hreg⟩ :=
    orderBy_success st stmts rank hr
  refine ⟨ordered ++ stmts.filter trailingKeep, hOrd, ?_⟩
  intro t s ht hst htrail hinj
  rw [List.count_append]
  have hc2 : (stmts.filter trailingKeep).count s = 0 := by
    rw [List.count_eq_zero]
    intro hmem
    have h2 := (List.mem_filter.mp hmem).2
    rw [htrail] at h2
    exact absurd h2 (by simp)
  rw [hc2, Nat.add_zero, hfm, count_filterMap_str]
  have hcong : v.countP (fun x => findStmt stmts x == some s)
      = v.countP (fun x => x == t) := by
    apply countP_congr_list
    intro x hx
    by_cases hxs : findStmt stmts x = some s
    · have hxt : x = t := hinj x (hreg x hx) hxs
      simp [hxs, hxt, hst]
    · have hxt : ¬ x = t := fun h => hxs (h ▸ hst)
      simp [hxs, hxt]
  rw [hcong]
  rw [show v.countP (fun x => x == t) = v.count t from rfl]
  exact List.count_eq_one_of_mem hnd (htab t ht)

/-- Witness for the amended C3 at the two-table scenario: the `customers`
statement appears exactly once in the merged output. -/
theorem merger_emits_once_witness :
    ∃ L, orderByDependencies
        ⟨["orders", "customers"], [("orders", ["customers"]), ("customers", [])]⟩
        ["CREATE TABLE `orders` (`a` INT)", "CREATE TABLE `customers` (`b` INT)"]
        = some L ∧
      ∀ t s, t ∈ (⟨["orders", "customers"],
              [("orders", ["customers"]), ("customers", [])]⟩ : MergeState).tables →
        findStmt ["CREATE TABLE `orders` (`a` INT)",
                  "CREATE TABLE `customers` (`b` INT)"] t = some s →
        trailingKeep s = false →
        (∀ x ∈ (⟨["orders", "customers"],
              [("orders", ["customers"]), ("customers", [])]⟩ : MergeState).tables
            ++ ((⟨["orders", "customers"],
              [("orders", ["customers"]), ("customers", [])]⟩ : MergeState).deps.map
                Prod.snd).flatten,
          findStmt ["CREATE TABLE `orders` (`a` INT)",
                    "CREATE TABLE `customers` (`b` INT)"] x = some s → x = t) →
        L.count s = 1 :=
  merger_acyclic_terminates_and_emits_once
    ⟨["orders", "customers"], [("orders", ["customers"]), ("customers", [])]⟩
    ["CREATE TABLE `orders` (`a` INT)", "CREATE TABLE `customers` (`b` INT)"]
    (fun t => if t = "orders" then 1 else 0) (by decide)

/-- Counterexample to C3 as stated: on the one-table graph with a self
dependency the visit re-enters `a` before `a` is ever marked visited (the
mark happens only after the dependency loop), so the recursion never
terminates; the model's stack budget is exhausted and the run aborts
(`none`) instead of emitting the statement once. -/
theorem merger_cycle_aborts :
    orderByDependencies ⟨["a"], [("a", ["a"])]⟩ ["CREATE TABLE `a` (`x` INT)"]
      = none := by
  simp [orderByDependencies, visitGo, fuelBound, regNames, depsOf, insertName,
        findStmt, includesStr, includesChars, tablePat]
